import Mathlib

/-!
Shallow embedding of `find_unused.py`, a heuristic static-analysis script
that reports source files, headers and web assets that appear unreferenced
by build configuration or including code.

Python strings are embedded as Lean `String`; the Python operations used by
the script (`in`, `startswith`, `endswith`, slicing, `os.path.basename`,
`os.path.join`) are embedded as character-level operations on `String.toList`.
The filesystem is embedded as an explicit oracle (`FS`): `walk d` gives the
`(root, files)` pairs `os.walk(d)` would yield, in traversal order, and
`file p` gives the raw content of path `p` (`none` when the file is absent).
Fallible reads return `Except`.
-/

/-- Python `needle in haystack`: literal substring containment. -/
def pyIn (needle haystack : String) : Bool :=
  decide (needle.toList <:+: haystack.toList)

/-- Python `s.startswith(pre)`. -/
def pyStartswith (s pre : String) : Bool :=
  decide (s.toList.take pre.toList.length = pre.toList)

/-- Python `s.endswith(suf)`. -/
def pyEndswith (s suf : String) : Bool :=
  decide (s.toList.reverse.take suf.toList.length = suf.toList.reverse)

/-- Python `s[n:]`: drop the first `n` characters. -/
def pyDrop (s : String) (n : Nat) : String :=
  String.mk (s.toList.drop n)

/-- Python `os.path.basename(p)`: the part of `p` after the last slash
(`posixpath.basename` returns `p[p.rfind('/') + 1:]`). -/
def basename (p : String) : String :=
  String.mk ((p.toList.reverse.takeWhile (fun c => c ≠ '/')).reverse)

/-- Python `os.path.join(root, file)` for a plain relative `root`. -/
def joinPath (root file : String) : String :=
  root ++ "/" ++ file

/-- Content of a file on disk: either its bytes decode under the assumed
text encoding (giving `s`), or they do not, in which case `lossy` is what a
best-effort decode with `errors='ignore'` yields. -/
inductive FileContent where
  | decodable (s : String)
  | undecodable (lossy : String)
deriving DecidableEq

/-- What Python `open(p, 'r', errors='ignore').read()` returns. -/
def lossyDecode : FileContent → String
  | .decodable s => s
  | .undecodable l => l

/-- `open(p, 'r', errors='ignore')` + `.read()`: raises `FileNotFoundError`
when the file is absent, otherwise decodes leniently and never fails. -/
def openIgnore (file : String → Option FileContent) (p : String) :
    Except String String :=
  match file p with
  | none => .error "FileNotFoundError"
  | some fc => .ok (lossyDecode fc)

/-- `read_file` (find_unused.py:15-20): `open(path, 'r')` with strict
decoding; `except FileNotFoundError: return ""`.  A `UnicodeDecodeError`
raised by `f.read()` on undecodable bytes is not a `FileNotFoundError`,
so it propagates. -/
def read_file (file : String → Option FileContent) (path : String) :
    Except String String :=
  match file path with
  | none => .ok ""
  | some (.decodable s) => .ok s
  | some (.undecodable _) => .error "UnicodeDecodeError"

/-- `check_cmake_usage` (find_unused.py:22-42). -/
def check_cmake_usage (file_path cmake_content : String) : Bool :=
  if pyStartswith file_path "src/" then
    pyIn (pyDrop file_path 4) cmake_content
  else if pyStartswith file_path "tests/" then
    pyIn (pyDrop file_path 6) cmake_content
  else
    false

/-- `check_header_usage` (find_unused.py:44-49). -/
def check_header_usage (header_path all_source_content : String) : Bool :=
  if pyStartswith header_path "include/" then
    pyIn ("\"" ++ pyDrop header_path 8 ++ "\"") all_source_content
      || pyIn ("<" ++ pyDrop header_path 8 ++ ">") all_source_content
  else
    true

/-- Filesystem oracle: `walk d` lists the `(root, files)` pairs that
`os.walk(d)` yields, in traversal order (the `dirs` component is dropped
because the script never uses it); `file p` is the on-disk content at path
`p`, `none` when no such file exists. -/
structure FS where
  walk : String → List (String × List String)
  file : String → Option FileContent

/-- `get_files` (find_unused.py:5-13).  `os.path.relpath(q, ".")` is the
identity on the plain relative paths `os.walk("src")` etc. produce, so the
joined path is appended directly. -/
def get_files (fs : FS) (directory : String) (extensions : List String) :
    List String :=
  (fs.walk directory).foldl (fun acc rf =>
    acc ++ (rf.2.filter (fun file =>
      extensions.any (fun e => pyEndswith file e))).map
        (fun file => joinPath rf.1 file)) []

/-- The aggregate source content built in `main` (find_unused.py:78-84):
walk `"."`, skip any root containing `"build"` or `"node_modules"`, and
concatenate (with a newline after each) the lossily-decoded content of every
file ending in `.cpp`, `.c`, `.h` or `.hpp`. -/
def all_content (fs : FS) : Except String String :=
  (fs.walk ".").foldlM (fun acc rf =>
    if pyIn "build" rf.1 || pyIn "node_modules" rf.1 then
      pure acc
    else
      rf.2.foldlM (fun a file =>
        if [".cpp", ".c", ".h", ".hpp"].any (fun e => pyEndswith file e) then do
          let s ← openIgnore fs.file (joinPath rf.1 file)
          pure (a ++ s ++ "\n")
        else
          pure a) acc) ""

/-- The aggregate markup content built in `main` (find_unused.py:97-102):
walk `"ui"` and concatenate the lossily-decoded content of every file ending
in `.html`, with a newline after each. -/
def html_content (fs : FS) : Except String String :=
  (fs.walk "ui").foldlM (fun acc rf =>
    rf.2.foldlM (fun a file =>
      if pyEndswith file ".html" then do
        let s ← openIgnore fs.file (joinPath rf.1 file)
        pure (a ++ s ++ "\n")
      else
        pure a) acc) ""

/-- The loop at find_unused.py:60-64: collect sources not referenced by the
src build file, in enumeration order. -/
def unused_src_list (src_files : List String) (src_cmake : String) :
    List String :=
  src_files.foldl (fun acc f =>
    if check_cmake_usage f src_cmake then acc else acc ++ [f]) []

/-- The loop at find_unused.py:67-71: collect tests not referenced by the
tests build file, in enumeration order. -/
def unused_tests_list (test_files : List String) (tests_cmake : String) :
    List String :=
  test_files.foldl (fun acc f =>
    if check_cmake_usage f tests_cmake then acc else acc ++ [f]) []

/-- The loop at find_unused.py:86-90: collect headers not referenced in the
aggregate source content, in enumeration order. -/
def unused_headers_list (header_files : List String) (allc : String) :
    List String :=
  header_files.foldl (fun acc h =>
    if check_header_usage h allc then acc else acc ++ [h]) []

/-- The loop at find_unused.py:104-111: collect assets whose base name does
not occur in the aggregate markup content, in enumeration order. -/
def unused_assets_list (ui_assets : List String) (htmlc : String) :
    List String :=
  ui_assets.foldl (fun acc asset =>
    if pyIn (basename asset) htmlc then acc else acc ++ [asset]) []

/-- Stdout produced by `print(f)` once per listed path. -/
def printLines (l : List String) : String :=
  l.foldl (fun a s => a ++ s ++ "\n") ""

/-- `main` (find_unused.py:51-111) as a function from the filesystem oracle
to the produced stdout; `.error` models an uncaught exception. -/
def main_output (fs : FS) : Except String String := do
  let src_files := get_files fs "src" [".cpp", ".c"]
  let test_files := get_files fs "tests" [".cpp", ".c"]
  let src_cmake ← read_file fs.file "src/CMakeLists.txt"
  let tests_cmake ← read_file fs.file "tests/CMakeLists.txt"
  let u1 := unused_src_list src_files src_cmake
  let u2 := unused_tests_list test_files tests_cmake
  let header_files := get_files fs "include" [".h", ".hpp"]
  let allc ← all_content fs
  let u3 := unused_headers_list header_files allc
  let ui_assets := get_files fs "ui/static" [".js", ".css"]
  let htmlc ← html_content fs
  let u4 := unused_assets_list ui_assets htmlc
  pure ("--- Unused C++ Source Files ---\n" ++ printLines u1
    ++ "\n--- Unused Test Files ---\n" ++ printLines u2
    ++ "\n--- Unused Headers ---\n" ++ printLines u3
    ++ "\n--- Unused Web Assets ---\n" ++ printLines u4)

/-- Claim-side notion: `needle` occurs as a literal substring of `haystack`. -/
def IsSubstr (needle haystack : String) : Prop :=
  ∃ pre post : String, haystack = pre ++ needle ++ post

lemma toList_append (a b : String) : (a ++ b).toList = a.toList ++ b.toList := by
  simp [String.toList, String.data_append]

lemma mk_toList (s : String) : String.mk s.toList = s := rfl

/-- `pyIn` decides exactly literal substring containment. -/
lemma pyIn_iff_isSubstr (n h : String) : pyIn n h = true ↔ IsSubstr n h := by
  unfold pyIn IsSubstr
  rw [decide_eq_true_iff]
  constructor
  · rintro ⟨s, t, hst⟩
    refine ⟨String.mk s, String.mk t, ?_⟩
    apply String.ext
    simpa [String.toList] using hst.symm
  · rintro ⟨pre, post, rfl⟩
    exact ⟨pre.toList, post.toList, by simp [toList_append]⟩

lemma pyStartswith_append (pre rest : String) :
    pyStartswith (pre ++ rest) pre = true := by
  unfold pyStartswith
  rw [decide_eq_true_iff, toList_append, List.take_left]

lemma pyDrop_append (pre rest : String) :
    pyDrop (pre ++ rest) pre.toList.length = rest := by
  unfold pyDrop
  rw [toList_append, List.drop_left, mk_toList]

lemma pyStartswith_append_ne (p q rest : String)
    (hlen : q.toList.length ≤ p.toList.length)
    (hne : p.toList.take q.toList.length ≠ q.toList) :
    pyStartswith (p ++ rest) q = false := by
  unfold pyStartswith
  rw [decide_eq_false_iff_not, toList_append, List.take_append_eq_append_take,
    Nat.sub_eq_zero_of_le hlen, List.take_zero, List.append_nil]
  exact hne

lemma check_cmake_src (rest c : String) :
    check_cmake_usage ("src/" ++ rest) c = pyIn rest c := by
  have h4 : pyDrop ("src/" ++ rest) 4 = rest := by
    have h : (4 : Nat) = "src/".toList.length := by decide
    rw [h, pyDrop_append]
  simp [check_cmake_usage, pyStartswith_append, h4]

lemma check_cmake_tests (rest c : String) :
    check_cmake_usage ("tests/" ++ rest) c = pyIn rest c := by
  have hns : pyStartswith ("tests/" ++ rest) "src/" = false :=
    pyStartswith_append_ne "tests/" "src/" rest (by decide) (by decide)
  have h6 : pyDrop ("tests/" ++ rest) 6 = rest := by
    have h : (6 : Nat) = "tests/".toList.length := by decide
    rw [h, pyDrop_append]
  simp [check_cmake_usage, hns, pyStartswith_append, h6]

lemma check_header_include (rest c : String) :
    check_header_usage ("include/" ++ rest) c
      = (pyIn ("\"" ++ rest ++ "\"") c || pyIn ("<" ++ rest ++ ">") c) := by
  have h8 : pyDrop ("include/" ++ rest) 8 = rest := by
    have h : (8 : Nat) = "include/".toList.length := by decide
    rw [h, pyDrop_append]
  simp [check_header_usage, pyStartswith_append, h8]

lemma pyIn_empty_iff (n : String) : pyIn n "" = true ↔ n = "" := by
  unfold pyIn
  rw [decide_eq_true_iff]
  constructor
  · intro h
    have h0 : n.toList <:+: [] := by simpa using h
    have := List.infix_nil.mp h0
    apply String.ext
    simpa [String.toList] using this
  · rintro rfl
    simp

/-- Appending to an accumulator when a predicate fails is filtering. -/
lemma foldl_collect (p : String → Bool) (l : List String) (acc : List String) :
    l.foldl (fun a f => if p f then a else a ++ [f]) acc
      = acc ++ l.filter (fun f => ! p f) := by
  induction l generalizing acc with
  | nil => simp
  | cons x xs ih =>
    simp only [List.foldl_cons, List.filter_cons]
    by_cases h : p x = true
    · simp [h, ih]
    · simp only [Bool.not_eq_true] at h
      simp [h, ih]

/-- C1: for a candidate path under `src/` (resp. `tests/`),
`check_cmake_usage` returns true iff the path with that prefix (slash
included) stripped occurs as a literal substring of the build-file
content. -/
theorem C1_cmake_usage_iff_stripped_substring (rest content : String) :
    (check_cmake_usage ("src/" ++ rest) content = true ↔ IsSubstr rest content) ∧
    (check_cmake_usage ("tests/" ++ rest) content = true ↔ IsSubstr rest content) := by
  rw [check_cmake_src, check_cmake_tests]
  exact ⟨pyIn_iff_isSubstr rest content, pyIn_iff_isSubstr rest content⟩

/-- C2: for a header path under `include/`, `check_header_usage` returns
true iff the aggregate content contains the stripped fragment wrapped in
double quotes or wrapped in angle brackets as a literal substring. -/
theorem C2_header_usage_iff_quoted_or_angle (rest content : String) :
    check_header_usage ("include/" ++ rest) content = true ↔
      (IsSubstr ("\"" ++ rest ++ "\"") content ∨
        IsSubstr ("<" ++ rest ++ ">") content) := by
  rw [check_header_include, Bool.or_eq_true, pyIn_iff_isSubstr, pyIn_iff_isSubstr]

/-- C4: a candidate path starting with neither `src/` nor `tests/` makes
`check_cmake_usage` return false for any content, and a header path not
starting with `include/` makes `check_header_usage` return true for any
content; both functions are total, so neither raises. -/
theorem C4_unknown_prefix_defaults (p q c d : String)
    (h1 : pyStartswith p "src/" = false) (h2 : pyStartswith p "tests/" = false)
    (h3 : pyStartswith q "include/" = false) :
    check_cmake_usage p c = false ∧ check_header_usage q d = true := by
  unfold check_cmake_usage check_header_usage
  rw [h1, h2, h3]
  simp

theorem C4_witness :
    pyStartswith "lib/a.cpp" "src/" = false ∧
    pyStartswith "lib/a.cpp" "tests/" = false ∧
    pyStartswith "docs/a.h" "include/" = false ∧
    check_cmake_usage "lib/a.cpp" "a.cpp" = false ∧
    check_header_usage "docs/a.h" "" = true :=
  ⟨by decide, by decide, by decide,
    (C4_unknown_prefix_defaults "lib/a.cpp" "docs/a.h" "a.cpp" ""
      (by decide) (by decide) (by decide)).1,
    (C4_unknown_prefix_defaults "lib/a.cpp" "docs/a.h" "a.cpp" ""
      (by decide) (by decide) (by decide)).2⟩

/-- C6: with empty build-file content (the content produced for a missing
build file), every candidate with a non-empty remainder under `src/` or
`tests/` is classified unused. -/
theorem C6_empty_cmake_unused (rest : String) (hne : rest ≠ "") :
    check_cmake_usage ("src/" ++ rest) "" = false ∧
    check_cmake_usage ("tests/" ++ rest) "" = false := by
  rw [check_cmake_src, check_cmake_tests]
  have h : pyIn rest "" = false := by
    cases hpy : pyIn rest "" with
    | false => rfl
    | true => exact absurd ((pyIn_empty_iff rest).mp hpy) hne
  exact ⟨h, h⟩

theorem C6_witness :
    ("a.cpp" : String) ≠ "" ∧
    check_cmake_usage ("src/" ++ "a.cpp") "" = false ∧
    check_cmake_usage ("tests/" ++ "a.cpp") "" = false :=
  ⟨by decide,
    (C6_empty_cmake_unused "a.cpp" (by decide)).1,
    (C6_empty_cmake_unused "a.cpp" (by decide)).2⟩

/-- C7: each result list contains exactly the enumerated paths its checker
judged unreferenced, in enumeration order — each collection loop equals a
filter of its input list by the negated checker. -/
theorem C7_result_lists_are_filters (src test hdr assets : List String)
    (sc tc ac hc : String) :
    unused_src_list src sc = src.filter (fun f => ! check_cmake_usage f sc) ∧
    unused_tests_list test tc
      = test.filter (fun f => ! check_cmake_usage f tc) ∧
    unused_headers_list hdr ac
      = hdr.filter (fun x => ! check_header_usage x ac) ∧
    unused_assets_list assets hc
      = assets.filter (fun a => ! pyIn (basename a) hc) := by
  refine ⟨?_, ?_, ?_, ?_⟩ <;>
    simpa [unused_src_list, unused_tests_list, unused_headers_list,
      unused_assets_list] using foldl_collect _ _ []

/-- Demonstration filesystem contents for `read_file`: one decodable file,
one file whose bytes do not decode, everything else absent. -/
def fsDemo : String → Option FileContent := fun p =>
  if p = "a.txt" then some (FileContent.decodable "hi")
  else if p = "b.bin" then some (FileContent.undecodable "h")
  else none

theorem C5_counterexample :
    read_file fsDemo "b.bin" = Except.error "UnicodeDecodeError" := by
  rfl

/-- C5 (amended): `read_file` returns the empty string when the file does
not exist and the decoded content when the file decodes; but when the file
exists with bytes that do not decode under the assumed encoding, the
decode error propagates out of `read_file` (only `FileNotFoundError` is
caught) — no lossy decoding is performed. -/
theorem C5_read_file_behavior (file : String → Option FileContent)
    (path : String) :
    (file path = none → read_file file path = Except.ok "") ∧
    (∀ s, file path = some (FileContent.decodable s) →
      read_file file path = Except.ok s) ∧
    (∀ l, file path = some (FileContent.undecodable l) →
      read_file file path = Except.error "UnicodeDecodeError") := by
  refine ⟨fun h => ?_, fun s h => ?_, fun l h => ?_⟩ <;>
    simp [read_file, h]

theorem C5_witness :
    read_file fsDemo "missing.txt" = Except.ok "" ∧
    read_file fsDemo "a.txt" = Except.ok "hi" ∧
    read_file fsDemo "b.bin" = Except.error "UnicodeDecodeError" :=
  ⟨(C5_read_file_behavior fsDemo "missing.txt").1 (by decide),
    (C5_read_file_behavior fsDemo "a.txt").2.1 "hi" (by decide),
    (C5_read_file_behavior fsDemo "b.bin").2.2 "h" (by decide)⟩

/-- The filesystem of an empty project tree. -/
def emptyFS : FS := ⟨fun _ => [], fun _ => none⟩

/-- C8: `main` is a function of the filesystem state alone — two runs over
identical directory listings (traversal order pinned) and identical file
contents produce identical output. -/
theorem C8_deterministic (fs1 fs2 : FS)
    (hw : fs1.walk = fs2.walk) (hf : fs1.file = fs2.file) :
    main_output fs1 = main_output fs2 := by
  have h : fs1 = fs2 := by
    cases fs1
    cases fs2
    simp only [FS.mk.injEq]
    exact ⟨hw, hf⟩
  rw [h]

theorem C8_witness : main_output emptyFS = main_output emptyFS :=
  C8_deterministic emptyFS emptyFS rfl rfl

/-- Membership in a collect-if-unused loop. -/
lemma mem_foldl_collect (p : String → Bool) (l : List String) (a : String) :
    a ∈ l.foldl (fun acc f => if p f then acc else acc ++ [f]) []
      ↔ a ∈ l ∧ p a = false := by
  rw [foldl_collect]
  simp [List.mem_filter]

/-- The per-root markup step reads only `.html` files, so it is unchanged
when two content maps agree on every `.html`-suffixed path. -/
lemma htmlStep_congr (g1 g2 : String → Option FileContent) (r : String)
    (hf : ∀ f, pyEndswith f ".html" = true →
      g1 (joinPath r f) = g2 (joinPath r f)) :
    (fun (a : String) (file : String) =>
      if pyEndswith file ".html" then do
        let s ← openIgnore g1 (joinPath r file)
        pure (a ++ s ++ "\n")
      else
        (pure a : Except String String))
    = (fun (a : String) (file : String) =>
      if pyEndswith file ".html" then do
        let s ← openIgnore g2 (joinPath r file)
        pure (a ++ s ++ "\n")
      else
        (pure a : Except String String)) := by
  funext a file
  by_cases hh : pyEndswith file ".html" = true
  · rw [if_pos hh, if_pos hh]
    unfold openIgnore
    rw [hf file hh]
  · rw [if_neg hh, if_neg hh]

/-- C3: an asset is classified used iff its base file name occurs as a
literal substring of the aggregate markup content, and that aggregate
consults only files ending in `.html` under the `ui` walk — changing the
content of any other file (e.g. a script) cannot change it, so a reference
appearing only in another script file does not count as used. -/
theorem C3_asset_usage_markup_only (fs1 fs2 : FS) (assets : List String)
    (hc a : String)
    (hw : fs1.walk "ui" = fs2.walk "ui")
    (hf : ∀ r f, pyEndswith f ".html" = true →
      fs1.file (joinPath r f) = fs2.file (joinPath r f)) :
    html_content fs1 = html_content fs2 ∧
    (a ∈ unused_assets_list assets hc ↔
      a ∈ assets ∧ ¬ IsSubstr (basename a) hc) := by
  constructor
  · have houter :
        (fun (acc : String) (rf : String × List String) =>
          rf.2.foldlM (fun a file =>
            if pyEndswith file ".html" then do
              let s ← openIgnore fs1.file (joinPath rf.1 file)
              pure (a ++ s ++ "\n")
            else
              (pure a : Except String String)) acc)
        = (fun (acc : String) (rf : String × List String) =>
          rf.2.foldlM (fun a file =>
            if pyEndswith file ".html" then do
              let s ← openIgnore fs2.file (joinPath rf.1 file)
              pure (a ++ s ++ "\n")
            else
              (pure a : Except String String)) acc) := by
      funext acc rf
      rw [htmlStep_congr fs1.file fs2.file rf.1 (fun f h => hf rf.1 f h)]
    unfold html_content
    rw [hw, houter]
  · have m : a ∈ unused_assets_list assets hc ↔
        a ∈ assets ∧ pyIn (basename a) hc = false :=
      mem_foldl_collect (fun x => pyIn (basename x) hc) assets a
    rw [m, Bool.eq_false_iff]
    exact and_congr_right (fun _ => not_congr (pyIn_iff_isSubstr (basename a) hc))

/-- A filesystem for exercising the markup aggregation: one markup file and
one script file under `ui`. -/
def cfs3 : FS :=
  ⟨fun d => if d = "ui" then [("ui", ["index.html", "app.js"])] else [],
    fun p =>
      if p = "ui/index.html" then some (FileContent.decodable "uses app.js")
      else if p = "ui/app.js" then some (FileContent.decodable "")
      else none⟩

theorem C3_witness :
    html_content cfs3 = html_content cfs3 ∧
    ("ui/static/app.js" ∈ unused_assets_list ["ui/static/app.js"] "uses app.js"
      ↔ "ui/static/app.js" ∈ ["ui/static/app.js"] ∧
        ¬ IsSubstr (basename "ui/static/app.js") "uses app.js") :=
  C3_asset_usage_markup_only cfs3 cfs3 ["ui/static/app.js"] "uses app.js"
    "ui/static/app.js" rfl (fun _ _ _ => rfl)

/-- Claim-side selection: the joined paths of the walked files ending in a
recognized source/header suffix whose root directory path does not contain
`"build"` or `"node_modules"` as a substring. -/
def aggregate_files : List (String × List String) → List String
  | [] => []
  | rf :: w =>
    if pyIn "build" rf.1 || pyIn "node_modules" rf.1 then
      aggregate_files w
    else
      (rf.2.filter (fun f =>
        [".cpp", ".c", ".h", ".hpp"].any (fun e => pyEndswith f e))).map
          (fun f => joinPath rf.1 f) ++ aggregate_files w

/-- Concatenate the lossily-decoded contents of the listed files, a newline
after each, onto an accumulator. -/
def catContents (g : String → Option FileContent) (ps : List String)
    (acc : String) : String :=
  ps.foldl (fun a p =>
    a ++ lossyDecode ((g p).getD (FileContent.decodable "")) ++ "\n") acc

lemma catContents_append (g : String → Option FileContent)
    (A B : List String) (acc : String) :
    catContents g (A ++ B) acc = catContents g B (catContents g A acc) := by
  unfold catContents
  exact List.foldl_append ..

lemma openIgnore_ok (g : String → Option FileContent) (p : String)
    (h : g p ≠ none) :
    openIgnore g p
      = Except.ok (lossyDecode ((g p).getD (FileContent.decodable ""))) := by
  cases hg : g p with
  | none => exact absurd hg h
  | some fc => simp [openIgnore, hg]

/-- The per-root step of the aggregate build concatenates exactly the
suffix-matching files of that root, provided those files exist. -/
lemma aggregate_inner (g : String → Option FileContent) (r : String) :
    ∀ (files : List String),
    (∀ p ∈ (files.filter (fun f =>
        [".cpp", ".c", ".h", ".hpp"].any (fun e => pyEndswith f e))).map
          (fun f => joinPath r f), g p ≠ none) →
    ∀ acc : String,
    (files.foldlM (fun a file =>
      if [".cpp", ".c", ".h", ".hpp"].any (fun e => pyEndswith file e) then do
        let s ← openIgnore g (joinPath r file)
        pure (a ++ s ++ "\n")
      else
        pure a) acc : Except String String)
      = Except.ok (catContents g
          ((files.filter (fun f =>
            [".cpp", ".c", ".h", ".hpp"].any (fun e => pyEndswith f e))).map
              (fun f => joinPath r f)) acc) := by
  intro files
  induction files with
  | nil => intro _ acc; rfl
  | cons x xs ih =>
    intro hex acc
    rw [List.foldlM_cons]
    by_cases hx : ([".cpp", ".c", ".h", ".hpp"].any
        (fun e => pyEndswith x e)) = true
    · have hsel : (x :: xs).filter (fun f =>
          [".cpp", ".c", ".h", ".hpp"].any (fun e => pyEndswith f e))
          = x :: xs.filter (fun f =>
            [".cpp", ".c", ".h", ".hpp"].any (fun e => pyEndswith f e)) :=
        List.filter_cons_of_pos
          (p := fun f => [".cpp", ".c", ".h", ".hpp"].any
            (fun e => pyEndswith f e)) hx
      rw [if_pos hx, hsel, List.map_cons,
        openIgnore_ok g (joinPath r x)
          (hex (joinPath r x) (by rw [hsel, List.map_cons]; exact List.mem_cons_self ..))]
      exact ih (fun p hp =>
        hex p (by rw [hsel, List.map_cons]; exact List.mem_cons_of_mem _ hp)) _
    · have hsel : (x :: xs).filter (fun f =>
          [".cpp", ".c", ".h", ".hpp"].any (fun e => pyEndswith f e))
          = xs.filter (fun f =>
            [".cpp", ".c", ".h", ".hpp"].any (fun e => pyEndswith f e)) :=
        List.filter_cons_of_neg
          (p := fun f => [".cpp", ".c", ".h", ".hpp"].any
            (fun e => pyEndswith f e)) hx
      rw [if_neg hx, hsel]
      exact ih (fun p hp => hex p (by rw [hsel]; exact hp)) acc

/-- The whole aggregate build succeeds and equals the concatenation over
the claim-side selected file list, provided the selected files exist. -/
lemma aggregate_outer (g : String → Option FileContent) :
    ∀ (w : List (String × List String)),
    (∀ p ∈ aggregate_files w, g p ≠ none) →
    ∀ acc : String,
    (w.foldlM (fun acc rf =>
      if pyIn "build" rf.1 || pyIn "node_modules" rf.1 then
        pure acc
      else
        rf.2.foldlM (fun a file =>
          if [".cpp", ".c", ".h", ".hpp"].any (fun e => pyEndswith file e) then do
            let s ← openIgnore g (joinPath rf.1 file)
            pure (a ++ s ++ "\n")
          else
            pure a) acc) acc : Except String String)
      = Except.ok (catContents g (aggregate_files w) acc) := by
  intro w
  induction w with
  | nil => intro _ acc; rfl
  | cons rf w ih =>
    intro hex acc
    rw [List.foldlM_cons]
    simp only [aggregate_files]
    by_cases hskip : (pyIn "build" rf.1 || pyIn "node_modules" rf.1) = true
    · rw [if_pos hskip, if_pos hskip]
      exact ih (fun p hp =>
        hex p (by simp only [aggregate_files]; rw [if_pos hskip]; exact hp)) acc
    · rw [if_neg hskip, if_neg hskip,
        aggregate_inner g rf.1 rf.2 (fun p hp =>
          hex p (by
            simp only [aggregate_files]
            rw [if_neg hskip]
            exact List.mem_append_left _ hp)) acc,
        catContents_append]
      exact ih (fun p hp =>
        hex p (by
          simp only [aggregate_files]
          rw [if_neg hskip]
          exact List.mem_append_right _ hp)) _

/-- A filesystem whose only walked root is `./prebuilt`: its name does not
contain `"build"` as a substring, so its header IS read into the
aggregate. -/
def cfsPrebuilt : FS :=
  ⟨fun d => if d = "." then [("./prebuilt", ["gen.h"])] else [],
    fun p =>
      if p = "./prebuilt/gen.h" then some (FileContent.decodable "GEN")
      else none⟩

theorem C10_counterexample :
    pyIn "build" "./prebuilt" = false ∧
    pyIn "node_modules" "./prebuilt" = false ∧
    aggregate_files (cfsPrebuilt.walk ".") = ["./prebuilt/gen.h"] ∧
    all_content cfsPrebuilt = Except.ok "GEN\n" :=
  ⟨by decide, by decide, by decide, rfl⟩

/-- C10 (amended): the aggregate source content is built from exactly the
walked files ending in `.cpp`, `.c`, `.h` or `.hpp` whose root directory
path does not contain `"build"` or `"node_modules"` anywhere as a
substring; the skip test is plain substring containment on the directory
path, so it also excludes a directory such as `rebuild` whose path merely
contains `"build"` — but not `prebuilt`, whose name does not contain
`"build"` as a substring. -/
theorem C10_aggregate_selected_files (fs : FS) (r : String)
    (hex : ∀ p ∈ aggregate_files (fs.walk "."), fs.file p ≠ none) :
    all_content fs
      = Except.ok (catContents fs.file (aggregate_files (fs.walk ".")) "") ∧
    ((pyIn "build" r || pyIn "node_modules" r) = true ↔
      (IsSubstr "build" r ∨ IsSubstr "node_modules" r)) := by
  constructor
  · unfold all_content
    exact aggregate_outer fs.file (fs.walk ".") hex ""
  · rw [Bool.or_eq_true, pyIn_iff_isSubstr, pyIn_iff_isSubstr]

/-- A filesystem for exercising the aggregate build: a `./rebuild` root
that the substring test skips, a `./node_modules/lib` root that it skips,
and a `./prebuilt` root that it does not skip. -/
def cfs10 : FS :=
  ⟨fun d => if d = "." then
      [(".", ["main.cpp", "README.md"]), ("./rebuild", ["gen.h"]),
        ("./node_modules/lib", ["dep.h"]), ("./prebuilt", ["tbl.h"])]
    else [],
    fun p => some (FileContent.decodable ("[" ++ p ++ "]"))⟩

theorem C10_witness :
    all_content cfs10
      = Except.ok (catContents cfs10.file (aggregate_files (cfs10.walk ".")) "") ∧
    ((pyIn "build" "./rebuild" || pyIn "node_modules" "./rebuild") = true ↔
      (IsSubstr "build" "./rebuild" ∨ IsSubstr "node_modules" "./rebuild")) :=
  C10_aggregate_selected_files cfs10 "./rebuild"
    (fun _ _ h => Option.noConfusion h)
